import Mathlib

/-!
Verification development for the UPX RiscV AUIPC filter (src/filter/auipc.h)
and the MemBuffer staging-buffer primitive (src/util/membuffer.cpp).

Buffers are modelled as `List Nat` of byte values; 32-bit machine words are
`Nat` values below 2^32, with wrap-around made explicit via `% 2^32` or via
`u32` on `Int` where the C code does signed arithmetic.
-/

/-! ## Byte-level primitives (get_le32 / set_le32 / get_be32 / set_be32) -/

/-- Byte of a buffer at index `i` (0 when out of range, which never happens
on the paths the C code takes). -/
def bD (b : List Nat) (i : Nat) : Nat := b.getD i 0

/-- Little-endian 32-bit load, as in `get_le32`. -/
def get_le32 (b : List Nat) (i : Nat) : Nat :=
  bD b i + 256 * bD b (i+1) + 65536 * bD b (i+2) + 16777216 * bD b (i+3)

/-- Big-endian 32-bit load, as in `get_be32`. -/
def get_be32 (b : List Nat) (i : Nat) : Nat :=
  16777216 * bD b i + 65536 * bD b (i+1) + 256 * bD b (i+2) + bD b (i+3)

/-- Little-endian 32-bit store, as in `set_le32`. -/
def set_le32 (b : List Nat) (i v : Nat) : List Nat :=
  (((b.set i (v % 256)).set (i+1) (v / 256 % 256)).set
    (i+2) (v / 65536 % 256)).set (i+3) (v / 16777216 % 256)

/-- Big-endian 32-bit store, as in `set_be32`. -/
def set_be32 (b : List Nat) (i v : Nat) : List Nat :=
  (((b.set i (v / 16777216 % 256)).set (i+1) (v / 65536 % 256)).set
    (i+2) (v / 256 % 256)).set (i+3) (v % 256)

/-- Reduce an `Int` to the `Nat` bit pattern of its low 32 bits
(two-complement wrap of C `int` arithmetic). -/
def u32 (x : Int) : Nat := (x % (2^32 : Int)).toNat

/-! ## Filter model: opcode fields and conditions from auipc.h -/

/-- Target opcode `#define AUIPC 0x17`. -/
def AUIPC : Nat := 0x17

/-- `#define opf(w) (0x7f& (w))`. -/
def opf (w : Nat) : Nat := 0x7f &&& w

/-- `#define rd(i_type) (037& ((i_type) >> 7))`. -/
def rdf (w : Nat) : Nat := 0o37 &&& (w >>> 7)

/-- `#define func3f(i_type) (7& ((i_type) >>12))`. -/
def func3f (w : Nat) : Nat := 7 &&& (w >>> 12)

/-- `#define rs1f(i_type) (037& ((i_type) >>15))`. -/
def rs1f (w : Nat) : Nat := 0o37 &&& (w >>> 15)

/-- `#define COND(word1) (AUIPC==opf(word1))`. -/
def COND (w : Nat) : Bool := AUIPC == opf w

/-- `#define CONDf(word2, r_aui)`: second word consumes the AUIPC result via
FETCH, JALR (func3 0) or ADDI (func3 0) with rs1 equal to `r_aui`. -/
def CONDf (w2 r_aui : Nat) : Bool :=
  r_aui == rs1f w2 &&
    (0x03 == opf w2 || (0x67 == opf w2 && 0 == func3f w2)
      || (0x13 == opf w2 && 0 == func3f w2))

/-- Unfilter-side fields: `#define opu(w) opf((w) >>12)`. -/
def opu (w : Nat) : Nat := opf (w >>> 12)

/-- `#define func3u(i_type) (7& ((i_type) >>24))`. -/
def func3u (w : Nat) : Nat := 7 &&& (w >>> 24)

/-- `#define rs1u(i_type) (037& ((i_type) >>27))`. -/
def rs1u (w : Nat) : Nat := 0o37 &&& (w >>> 27)

/-- `#define CONDu(word2, r_aui)`: the rotated second word of the filtered
layout consumes the AUIPC result. -/
def CONDu (w2 r_aui : Nat) : Bool :=
  r_aui == rs1u w2 &&
    (0x03 == opu w2 || (0x67 == opu w2 && 0 == func3u w2)
      || (0x13 == opu w2 && 0 == func3u w2))

/-- Instruction length decode from the two low bit pairs of word1:
`ilen = 2; if (3 == (3& w)) { ilen += 2; if (3 == (3& (w>>2))) ilen += 2; }`. -/
def ilen0 (w : Nat) : Nat :=
  if 3 == (3 &&& w) then (if 3 == (3 &&& (w >>> 2)) then 6 else 4) else 2

/-- The sign test `((word1 <<1) ^ word1) < 0`: true when the top two bits of
the 32-bit pattern `w` are unequal. -/
def top2neg (w : Nat) : Bool := 2^31 ≤ (((w <<< 1) % 2^32) ^^^ w)

/-- Arithmetic shift right by 20 of a signed 32-bit pattern, as an `Int`
(`word2 >> 20` on a C `int`): the sign-extended top 12 bits of word2. -/
def sra20 (w : Nat) : Int :=
  (w >>> 20 : Nat) - (if 2^31 ≤ w then 4096 else 0)

/-- `~0xfff & word1`: the high 20 bits of word1 (as a 32-bit pattern). -/
def hi20 (w : Nat) : Nat := 0xfffff000 &&& w

/-- The pre-hoist address `((~0xfff& word1) + (word2 >>20))` (sign-extended
immediate), as a 32-bit pattern; used on the rejected (>= 1GB) branch. -/
def addrNH (b : List Nat) (ic : Nat) : Nat :=
  u32 ((hi20 (get_le32 b ic) : Int) + sra20 (get_le32 b (4+ic)))

/-- The hoisted address `addr + ic` (accepted branch: the AUIPC result
value), as a 32-bit pattern. -/
def addrH (b : List Nat) (ic : Nat) : Nat :=
  u32 ((hi20 (get_le32 b ic) : Int) + sra20 (get_le32 b (4+ic)) + ic)

/-- The three stores of the forward transform (auipc.h lines 132-139):
low address bit next to the opcode in byte `ic`, the address with top-bit
parity flipped stored big-endian at `ic+1`, and the rotated second word
stored little-endian at `ic+4`. -/
def fwdWrite (b : List Nat) (ic addr w2 r_aui : Nat) : List Nat :=
  let b0 := b.set ic (((1 &&& addr) <<< 7) ||| AUIPC)
  let addr2 := addr ^^^ 2^31
  let b1 := set_be32 b0 (1+ic) addr2
  set_le32 b1 (4+ic) ((w2 <<< 12) ||| (r_aui <<< 7) ||| (0x7f &&& (addr2 >>> 1)))

/-- Result of a scan/filter/unfilter pass: the buffer plus the three
counters the engine reports back through the `Filter` struct. -/
structure FilterState where
  buf : List Nat
  calls : Nat
  noncalls : Nat
  lastcall : Nat
deriving DecidableEq

/-- The loop of `F` from auipc.h, fuel-indexed (the fuel is only a
structural-recursion bound; `F` supplies `b.length`, which always exceeds
the iteration count since every iteration advances `ic` by at least 2).
`filt = true` is the filter compilation (`U` defined), `filt = false` the
scan-only compilation. -/
def Floop : Nat → Bool → List Nat → Nat → Nat → Nat → Nat → FilterState
  | 0, _, b, _, calls, noncalls, lastcall => ⟨b, calls, noncalls, lastcall⟩
  | fuel+1, filt, b, ic, calls, noncalls, lastcall =>
    if ic < b.length - 8 then
      let word1 := get_le32 b ic
      if COND word1 then
        let r_aui := rdf word1
        let word2 := get_le32 b (4+ic)
        if CONDf word2 r_aui then
          if top2neg word1 then
            -- top two bits unequal: displacement >= 1GB, count as noncall,
            -- but in filter mode the pair is still rewritten (not hoisted)
            Floop fuel filt
              (if filt then fwdWrite b ic (addrNH b ic) word2 r_aui else b)
              (ic+8) calls (noncalls+1) lastcall
          else
            Floop fuel filt
              (if filt then fwdWrite b ic (addrH b ic) word2 r_aui else b)
              (ic+8) (calls+1) noncalls ic
        else
          Floop fuel filt b (ic + ilen0 word1) calls (noncalls+1) lastcall
      else
        Floop fuel filt b (ic + ilen0 word1) calls noncalls lastcall
    else ⟨b, calls, noncalls, lastcall⟩

/-- `F` from auipc.h: scan pass (`filt = false`) or filter pass
(`filt = true`) over the whole buffer. -/
def F (filt : Bool) (buf : List Nat) : FilterState :=
  Floop buf.length filt buf 0 0 0 0

/-- The two stores of the inverse transform (auipc.h lines 218-221),
applied after the un-hoisting decision produced `addr`. -/
def bwdWrite (b : List Nat) (ic addr w2 r_aui : Nat) : List Nat :=
  let a3 := (addr + ((2048 &&& addr) <<< 1)) % 2^32
  let a4 := a3 ^^^ 2^31
  let b1 := set_le32 b ic ((0xfffff000 &&& a4) ||| (r_aui <<< 7) ||| AUIPC)
  set_le32 b1 (4+ic) ((a4 <<< 20) ||| (w2 >>> 12))

/-- The loop of `U` from auipc.h, fuel-indexed exactly like `Floop`. -/
def Uloop : Nat → List Nat → Nat → Nat → Nat → Nat → FilterState
  | 0, b, _, calls, noncalls, lastcall => ⟨b, calls, noncalls, lastcall⟩
  | fuel+1, b, ic, calls, noncalls, lastcall =>
    if ic < b.length - 8 then
      let word1 := get_le32 b ic
      let word2 := get_le32 b (4+ic)
      let r_aui := 0o37 &&& (word2 >>> 7)
      if COND word1 then
        if CONDu word2 r_aui then
          let a0 := get_be32 b (1+ic)
          let a1 := (0xffffff00 &&& a0) ||| ((0x7f &&& a0) <<< 1)
                      ||| (1 &&& (word1 >>> 7))
          if top2neg a1 then
            -- incoming top two bits differ: the pair was hoisted; un-hoist
            Uloop fuel (bwdWrite b ic (u32 ((a1 : Int) - ic)) word2 r_aui)
              (ic+8) (calls+1) noncalls ic
          else
            Uloop fuel (bwdWrite b ic a1 word2 r_aui)
              (ic+8) calls (noncalls+1) lastcall
        else
          Uloop fuel b (ic + ilen0 word1) calls (noncalls+1) lastcall
      else
        Uloop fuel b (ic + ilen0 word1) calls noncalls lastcall
    else ⟨b, calls, noncalls, lastcall⟩

/-- `U` from auipc.h: the unfilter pass over the whole buffer. -/
def U (buf : List Nat) : FilterState :=
  Uloop buf.length buf 0 0 0 0

/-! ## MemBuffer model (src/util/membuffer.cpp), guard mode
(`use_simple_mcheck() == true`, the default build). -/

/-- Modelled from the spec: `UPX_RSIZE_MAX`, the maximum allocator size,
is defined outside the given sources ("implementation-defined maximum").
Its value is pinned exactly by the in-repo regression tests:
`getSizeForCompression(715827428) == UPX_RSIZE_MAX` forces it to be
805306368 = 0x30000000, consistent with `CHECK_THROWS(mb.alloc(0x30000000
+ 1))`. -/
def UPX_RSIZE_MAX : Nat := 0x30000000

/-- Modelled from the spec: `mem_size(1, n, extra1, extra2)` is defined
outside the given sources; per the spec it is the overflow-checked sum,
failing when the result exceeds the internal allocator maximum. -/
def mem_size (n extra1 extra2 : Nat) : Option Nat :=
  if n ≤ UPX_RSIZE_MAX ∧ extra1 ≤ UPX_RSIZE_MAX ∧ extra2 ≤ UPX_RSIZE_MAX
      ∧ n + extra1 + extra2 ≤ UPX_RSIZE_MAX then
    some (n + extra1 + extra2)
  else none

/-- `MemBuffer::getSizeForCompression(uncompressed_size, extra)`:
the larger of the UCL all-literal bound `z + z/8 + 256` and the zstd
compress bound `z + (z>>8) + ((z < 128K) ? ((128K - z) >> 11) : 0)`,
plus `extra` plus 256 safety, overflow-checked; fails on size 0. -/
def getSizeForCompression (uncompressed_size extra : Nat) : Option Nat :=
  if uncompressed_size = 0 then none
  else
    let z := uncompressed_size
    match mem_size z 0 0 with
    | none => none
    | some bytes =>
      let bytes := max bytes (z + z / 8 + 256)
      let bytes := max bytes
        (z + (z >>> 8) + (if z < 131072 then (131072 - z) >>> 11 else 0))
      mem_size bytes extra 256

/-- `MemBuffer::getSizeForDecompression(uncompressed_size, extra)`:
the uncompressed size plus extra, overflow-checked; fails on size 0. -/
def getSizeForDecompression (uncompressed_size extra : Nat) : Option Nat :=
  if uncompressed_size = 0 then none
  else mem_size uncompressed_size extra 0

/-- `#define MAGIC1(p) ((PTR_BITS32(p) ^ 0xfefdbeeb) | 1)`. -/
def MAGIC1 (p : Nat) : Nat := ((p % 2^32) ^^^ 0xfefdbeeb) ||| 1

/-- `#define MAGIC2(p) ((PTR_BITS32(p) ^ 0xfefdbeeb ^ 0x88224411) | 1)`. -/
def MAGIC2 (p : Nat) : Nat := ((p % 2^32) ^^^ 0xfefdbeeb ^^^ 0x88224411) ||| 1

/-- A MemBuffer: `ptr` is the payload address (`none` models `nullptr`),
`heap` the bytes of the owned malloc region, in which the payload starts
at index 16 (so the C address `ptr - k` is heap index `16 - k`). -/
structure MB where
  ptr : Option Nat
  size_in_bytes : Nat
  heap : List Nat
deriving DecidableEq

/-- A default-constructed MemBuffer: unallocated. -/
def mbInit : MB := ⟨none, 0, []⟩

/-- `MemBuffer::checkState()`: fails (false) on an unallocated buffer, on
`size_in_bytes == 0` (the assert), or when any of the three guard words
disagrees with what alloc wrote: MAGIC1 just before the payload, the size
word before that, MAGIC2 just past the payload. -/
def checkState (m : MB) : Bool :=
  match m.ptr with
  | none => false
  | some p =>
    decide (0 < m.size_in_bytes) &&
    (get_le32 m.heap 12 == MAGIC1 p) &&
    (get_le32 m.heap 8 == m.size_in_bytes) &&
    (get_le32 m.heap (16 + m.size_in_bytes) == MAGIC2 p)

/-- Fresh malloc contents: `junk` is the allocator-chosen garbage,
normalised to `len` bytes. -/
def freshHeap (junk : List Nat) (len : Nat) : List Nat :=
  ((junk.map (· % 256)) ++ List.replicate len 0).take len

/-- `MemBuffer::alloc(bytes)` in guard mode: asserts the buffer is
unallocated and `bytes > 0`, checks `mem_size(1, bytes)`, reserves
`bytes + 32`, offsets the payload by 16 and writes the four guard words
(size, MAGIC1, MAGIC2, allocation counter). `p` is the payload address
and `junk` the malloc garbage (both chosen by the environment); a failed
assert or size check is `none` (the model does not model malloc running
out of memory). -/
def alloc (m : MB) (bytes p cnt : Nat) (junk : List Nat) : Option MB :=
  if m.ptr ≠ none then none
  else if m.size_in_bytes ≠ 0 then none
  else if bytes = 0 then none
  else if UPX_RSIZE_MAX < bytes then none
  else
    let h0 := freshHeap junk (bytes + 32)
    let h1 := set_le32 h0 8 bytes
    let h2 := set_le32 h1 12 (MAGIC1 p)
    let h3 := set_le32 h2 (16 + bytes) (MAGIC2 p)
    let h4 := set_le32 h3 (16 + bytes + 4) cnt
    some ⟨some p, bytes, h4⟩

/-- `MemBuffer::dealloc()`: a no-op on a never-allocated buffer (with the
`size_in_bytes == 0` assert), otherwise re-validates the guards
(`none` models the `std::terminate` on corruption) and releases the
region. -/
def dealloc (m : MB) : Option MB :=
  match m.ptr with
  | none => if m.size_in_bytes = 0 then some m else none
  | some _ => if checkState m then some ⟨none, 0, []⟩ else none

/-- `MemBuffer::subref_impl` range check on an allocated buffer of size
`size_in_bytes`: fails iff `skip + take > size_in_bytes` or the size_t
addition wrapped (`skip + take < skip`). -/
def subref_fails (size_in_bytes skip take : Nat) : Bool :=
  decide (size_in_bytes < (skip + take) % 2^64)
    || decide ((skip + take) % 2^64 < skip)

/-! ## Derived specification-side definitions -/

/-- The instruction positions visited by a pass of F whose leading word
matches the AUIPC opcode: a pure traversal of the (unmodified) buffer
with exactly the advance discipline of the loop of F. -/
def auipcVisits : Nat → List Nat → Nat → Nat
  | 0, _, _ => 0
  | fuel+1, b, ic =>
    if ic < b.length - 8 then
      let word1 := get_le32 b ic
      if COND word1 then
        if CONDf (get_le32 b (4+ic)) (rdf word1) then
          1 + auipcVisits fuel b (ic+8)
        else
          1 + auipcVisits fuel b (ic + ilen0 word1)
      else
        auipcVisits fuel b (ic + ilen0 word1)
    else 0

/-- Number of visited positions of a full pass whose leading instruction
word has the AUIPC opcode. -/
def auipcPositions (b : List Nat) : Nat := auipcVisits b.length b 0

/-- The counter triple (calls, noncalls, lastcall) of a pass result. -/
def ctrs (s : FilterState) : Nat × Nat × Nat := (s.calls, s.noncalls, s.lastcall)

/-- The unallocated MemBuffer state: null storage, zero size (and no owned
region). -/
def Unallocated (m : MB) : Prop :=
  m.ptr = none ∧ m.size_in_bytes = 0 ∧ m.heap = []

/-- The allocated MemBuffer state: non-null storage, positive size, an
owned region of payload-plus-guards shape with byte values, and guard
words consistent with what alloc wrote (checkState succeeds). -/
def AllocatedOK (m : MB) : Prop :=
  (∃ p, m.ptr = some p) ∧ 0 < m.size_in_bytes ∧
  m.heap.length = m.size_in_bytes + 32 ∧ (∀ x ∈ m.heap, x < 256) ∧
  checkState m = true

/-- The MemBuffer two-state invariant. -/
def MBInv (m : MB) : Prop := Unallocated m ∨ AllocatedOK m

/-- A concrete allocated heap region (payload size 1, payload address
1000, allocation counter 0, zeroed malloc garbage), used to instantiate
guard-corruption statements. -/
def heapW : List Nat :=
  [0, 0, 0, 0, 0, 0, 0, 0, 1, 0, 0, 0, 3, 189, 253, 254, 0,
   19, 249, 223, 118, 0, 0, 0, 0, 0, 0, 0, 0, 0, 0, 0, 0]

/-! ## Byte-level helper lemmas -/

theorem bD_set_ne {i j : Nat} (h : i ≠ j) (b : List Nat) (v : Nat) :
    bD (b.set i v) j = bD b j := by
  simp [bD, List.getD_eq_getElem?_getD, List.getElem?_set_ne h]

theorem bD_set_self {i : Nat} {b : List Nat} (h : i < b.length) (v : Nat) :
    bD (b.set i v) i = v := by
  simp [bD, List.getD_eq_getElem?_getD, List.getElem?_set_eq_of_lt v h]

theorem bD_lt_256 {b : List Nat} (hb : ∀ x ∈ b, x < 256) {k : Nat}
    (hk : k < b.length) : bD b k < 256 := by
  have h1 : b[k]? = some b[k] := List.getElem?_eq_getElem hk
  have h2 : bD b k = b[k] := by simp [bD, List.getD_eq_getElem?_getD, h1]
  rw [h2]
  exact hb _ (List.getElem_mem hk)

theorem length_set_le32 (b : List Nat) (i v : Nat) :
    (set_le32 b i v).length = b.length := by
  simp [set_le32]

theorem length_set_be32 (b : List Nat) (i v : Nat) :
    (set_be32 b i v).length = b.length := by
  simp [set_be32]

theorem length_fwdWrite (b : List Nat) (ic a w2 r : Nat) :
    (fwdWrite b ic a w2 r).length = b.length := by
  simp [fwdWrite, length_set_le32, length_set_be32]

theorem length_bwdWrite (b : List Nat) (ic a w2 r : Nat) :
    (bwdWrite b ic a w2 r).length = b.length := by
  simp [bwdWrite, length_set_le32]

theorem bD_set_le32_frame (b : List Nat) (i v j : Nat)
    (h : j < i ∨ i + 4 ≤ j) : bD (set_le32 b i v) j = bD b j := by
  have h0 : i ≠ j := by omega
  have h1 : i + 1 ≠ j := by omega
  have h2 : i + 2 ≠ j := by omega
  have h3 : i + 3 ≠ j := by omega
  simp only [set_le32]
  rw [bD_set_ne h3, bD_set_ne h2, bD_set_ne h1, bD_set_ne h0]

theorem bD_set_be32_frame (b : List Nat) (i v j : Nat)
    (h : j < i ∨ i + 4 ≤ j) : bD (set_be32 b i v) j = bD b j := by
  have h0 : i ≠ j := by omega
  have h1 : i + 1 ≠ j := by omega
  have h2 : i + 2 ≠ j := by omega
  have h3 : i + 3 ≠ j := by omega
  simp only [set_be32]
  rw [bD_set_ne h3, bD_set_ne h2, bD_set_ne h1, bD_set_ne h0]

theorem fwdWrite_frame (b : List Nat) (ic a w2 r j : Nat)
    (h : j < ic ∨ ic + 8 ≤ j) : bD (fwdWrite b ic a w2 r) j = bD b j := by
  have h0 : ic ≠ j := by omega
  simp only [fwdWrite]
  rw [bD_set_le32_frame _ _ _ _ (by omega), bD_set_be32_frame _ _ _ _ (by omega),
    bD_set_ne h0]

theorem bwdWrite_frame (b : List Nat) (ic a w2 r j : Nat)
    (h : j < ic ∨ ic + 8 ≤ j) : bD (bwdWrite b ic a w2 r) j = bD b j := by
  simp only [bwdWrite]
  rw [bD_set_le32_frame _ _ _ _ (by omega), bD_set_le32_frame _ _ _ _ (by omega)]

theorem get_le32_set_frame (b : List Nat) (k v i : Nat)
    (h : i + 4 ≤ k ∨ k < i) : get_le32 (b.set k v) i = get_le32 b i := by
  have h0 : k ≠ i := by omega
  have h1 : k ≠ i + 1 := by omega
  have h2 : k ≠ i + 2 := by omega
  have h3 : k ≠ i + 3 := by omega
  simp only [get_le32]
  rw [bD_set_ne h0, bD_set_ne h1, bD_set_ne h2, bD_set_ne h3]

theorem get_be32_set_frame (b : List Nat) (k v i : Nat)
    (h : i + 4 ≤ k ∨ k < i) : get_be32 (b.set k v) i = get_be32 b i := by
  have h0 : k ≠ i := by omega
  have h1 : k ≠ i + 1 := by omega
  have h2 : k ≠ i + 2 := by omega
  have h3 : k ≠ i + 3 := by omega
  simp only [get_be32]
  rw [bD_set_ne h0, bD_set_ne h1, bD_set_ne h2, bD_set_ne h3]

/-- An AUIPC first word always length-decodes to 4 bytes: its low seven
bits are 0010111, so the first length bit pair is 11 and the second is
not. -/
theorem ilen0_of_auipc {w : Nat} (h : COND w = true) : ilen0 w = 4 := by
  have hop : (0x17 : Nat) = 0x7f &&& w := by
    simpa [COND, opf, AUIPC] using h
  have hmask : w &&& 127 = w % 128 := by
    simpa using Nat.and_pow_two_sub_one_eq_mod w 7
  have hmod : w % 128 = 23 := by
    rw [Nat.and_comm] at hop
    omega
  have h3 : w &&& 3 = w % 4 := by
    simpa using Nat.and_pow_two_sub_one_eq_mod w 2
  have h1 : 3 &&& w = 3 := by
    rw [Nat.and_comm]
    omega
  have hs : w >>> 2 = w / 4 := by
    simpa using Nat.shiftRight_eq_div_pow w 2
  have h4 : (w >>> 2) &&& 3 = (w >>> 2) % 4 := by
    simpa using Nat.and_pow_two_sub_one_eq_mod (w >>> 2) 2
  have h2 : 3 &&& (w >>> 2) = 1 := by
    rw [Nat.and_comm, h4, hs]
    omega
  simp [ilen0, h1, h2]

/-! ## Scan mode never writes -/

theorem Floop_scan_buf (fuel : Nat) :
    ∀ b ic c n l, (Floop fuel false b ic c n l).buf = b := by
  induction fuel with
  | zero => intro b ic c n l; rfl
  | succ fuel ih =>
    intro b ic c n l
    simp only [Floop]
    split
    · split
      · split
        · split
          · simpa using ih b (ic+8) c (n+1) l
          · simpa using ih b (ic+8) (c+1) n ic
        · exact ih b _ c (n+1) l
      · exact ih b _ c n l
    · rfl

/-! ## Claim theorems (first batch) -/

/-- Claim C1 (code_bug evidence): the claimed round trip
`U(F(B)) == B` fails on the 9-byte buffer B9 = AUIPC word `0x00000017`
followed by word `0x00003000` plus one pad byte: the filter pass rejects
the pair at the consumer-form check (CONDf) and leaves the buffer
byte-identical, but the unfilter pass accepts the same pair at its own
consumer-form check (CONDu, which reads the rotated field positions) and
rewrites bytes 0..7, so unfiltering the filtered buffer does not restore
it. -/
theorem C1_roundtrip_fails :
    (F true [0x17, 0, 0, 0, 0x00, 0x30, 0, 0, 0]).buf
        = [0x17, 0, 0, 0, 0x00, 0x30, 0, 0, 0] ∧
    (U (F true [0x17, 0, 0, 0, 0x00, 0x30, 0, 0, 0]).buf).buf
        ≠ [0x17, 0, 0, 0, 0x00, 0x30, 0, 0, 0] := by
  decide

/-- Claim C2 (counterexample): on the 9-byte buffer B2 = AUIPC word
`0x40000097` (top two bits 01, i.e. unequal) followed by ADDI word
`0x00008013` consuming register 1, the pair passes the opcode and
consumer-form checks and is rejected by the displacement guard
(noncalls = 1, calls = 0, lastcall = 0 as the claim states), but in
filter mode the two instruction words are NOT left byte-identical to the
original: the pass still rewrites them. -/
theorem C2_counterexample :
    COND (get_le32 [0x97, 0, 0, 0x40, 0x13, 0x80, 0, 0, 0] 0) = true ∧
    CONDf (get_le32 [0x97, 0, 0, 0x40, 0x13, 0x80, 0, 0, 0] 4)
      (rdf (get_le32 [0x97, 0, 0, 0x40, 0x13, 0x80, 0, 0, 0] 0)) = true ∧
    top2neg (get_le32 [0x97, 0, 0, 0x40, 0x13, 0x80, 0, 0, 0] 0) = true ∧
    (F true [0x97, 0, 0, 0x40, 0x13, 0x80, 0, 0, 0]).calls = 0 ∧
    (F true [0x97, 0, 0, 0x40, 0x13, 0x80, 0, 0, 0]).noncalls = 1 ∧
    (F true [0x97, 0, 0, 0x40, 0x13, 0x80, 0, 0, 0]).lastcall = 0 ∧
    (F true [0x97, 0, 0, 0x40, 0x13, 0x80, 0, 0, 0]).buf
      ≠ [0x97, 0, 0, 0x40, 0x13, 0x80, 0, 0, 0] := by
  decide

/-- Claim C2 (amended): in filter mode, a candidate pair that passes the
opcode and consumer-form checks but whose pre-hoist top two bits differ
is counted as a noncall — calls and lastcall are not updated by this
iteration — and the iteration advances past both words; the two
instruction words of the pair are, however, rewritten in place by the (non-hoisted)
transform, and no byte outside the eight bytes of the pair is touched. -/
theorem C2_rejected_pair_step (fuel : Nat) (b : List Nat) (ic c n l : Nat)
    (h1 : ic < b.length - 8)
    (h2 : COND (get_le32 b ic) = true)
    (h3 : CONDf (get_le32 b (4+ic)) (rdf (get_le32 b ic)) = true)
    (h4 : top2neg (get_le32 b ic) = true) :
    Floop (fuel+1) true b ic c n l =
      Floop fuel true
        (fwdWrite b ic (addrNH b ic) (get_le32 b (4+ic)) (rdf (get_le32 b ic)))
        (ic+8) c (n+1) l ∧
    ∀ j, j < ic ∨ ic + 8 ≤ j →
      bD (fwdWrite b ic (addrNH b ic) (get_le32 b (4+ic))
        (rdf (get_le32 b ic))) j = bD b j := by
  constructor
  · simp [Floop, h1, h2, h3, h4]
  · intro j hj
    exact fwdWrite_frame b ic _ _ _ j hj

/-- Witness for C2_rejected_pair_step at the concrete buffer of
C2_counterexample. -/
theorem C2_rejected_pair_step_witness :
    Floop 1 true [0x97, 0, 0, 0x40, 0x13, 0x80, 0, 0, 0] 0 0 0 0 =
      Floop 0 true
        (fwdWrite [0x97, 0, 0, 0x40, 0x13, 0x80, 0, 0, 0] 0
          (addrNH [0x97, 0, 0, 0x40, 0x13, 0x80, 0, 0, 0] 0)
          (get_le32 [0x97, 0, 0, 0x40, 0x13, 0x80, 0, 0, 0] 4)
          (rdf (get_le32 [0x97, 0, 0, 0x40, 0x13, 0x80, 0, 0, 0] 0)))
        8 0 1 0 ∧
    ∀ j, j < 0 ∨ 8 ≤ j →
      bD (fwdWrite [0x97, 0, 0, 0x40, 0x13, 0x80, 0, 0, 0] 0
        (addrNH [0x97, 0, 0, 0x40, 0x13, 0x80, 0, 0, 0] 0)
        (get_le32 [0x97, 0, 0, 0x40, 0x13, 0x80, 0, 0, 0] 4)
        (rdf (get_le32 [0x97, 0, 0, 0x40, 0x13, 0x80, 0, 0, 0] 0))) j =
      bD [0x97, 0, 0, 0x40, 0x13, 0x80, 0, 0, 0] j := by
  exact C2_rejected_pair_step 0 [0x97, 0, 0, 0x40, 0x13, 0x80, 0, 0, 0]
    0 0 0 0 (by decide) (by decide) (by decide) (by decide)

/-- Claim C3: the scan compilation of F (filter action compiled out)
returns the buffer unchanged, whatever its contents; it only computes the
counters. -/
theorem C3_scan_preserves_buffer (b : List Nat) : (F false b).buf = b :=
  Floop_scan_buf b.length b 0 0 0 0

/-- Claim C5 (counterexample): on the 13-byte buffer B5 whose word at 0 is
AUIPC `0x00000017` and whose following word is again `0x00000017` (which
fails the consumer-form check), the pass does NOT advance past the
8 bytes of the pair after the rejection: it advances only 4 bytes and
reprocesses the second word of the pair as a new first instruction, which is again an AUIPC
candidate and is again rejected — so noncalls ends at 2, not 1, and the
final state is not the one the claimed 8-byte advance would produce. -/
theorem C5_counterexample :
    COND (get_le32 [0x17,0,0,0, 0x17,0,0,0, 0,0,0,0, 0] 0) = true ∧
    CONDf (get_le32 [0x17,0,0,0, 0x17,0,0,0, 0,0,0,0, 0] 4)
      (rdf (get_le32 [0x17,0,0,0, 0x17,0,0,0, 0,0,0,0, 0] 0)) = false ∧
    (F false [0x17,0,0,0, 0x17,0,0,0, 0,0,0,0, 0]).noncalls = 2 ∧
    F false [0x17,0,0,0, 0x17,0,0,0, 0,0,0,0, 0]
      ≠ ⟨[0x17,0,0,0, 0x17,0,0,0, 0,0,0,0, 0], 0, 1, 0⟩ := by
  decide

/-- Claim C5 (amended): a candidate pair whose first word matches the
AUIPC opcode but which is rejected at the consumer-form (CONDf) step
increments noncalls and advances only by the own decoded length of the
first instruction — 4 bytes for an AUIPC word — so the second word IS
examined as a new first instruction; only pairs that pass CONDf (and are
then accepted or rejected by the displacement guard) advance the full 8
bytes. -/
theorem C5_condf_reject_step (fuel : Nat) (filt : Bool) (b : List Nat)
    (ic c n l : Nat)
    (h1 : ic < b.length - 8)
    (h2 : COND (get_le32 b ic) = true)
    (h3 : CONDf (get_le32 b (4+ic)) (rdf (get_le32 b ic)) = false) :
    Floop (fuel+1) filt b ic c n l =
      Floop fuel filt b (ic + ilen0 (get_le32 b ic)) c (n+1) l ∧
    ilen0 (get_le32 b ic) = 4 := by
  refine ⟨?_, ilen0_of_auipc h2⟩
  simp [Floop, h1, h2, h3]

/-- Witness for C5_condf_reject_step at the concrete buffer of
C5_counterexample. -/
theorem C5_condf_reject_step_witness :
    Floop 1 false [0x17,0,0,0, 0x17,0,0,0, 0,0,0,0, 0] 0 0 0 0 =
      Floop 0 false [0x17,0,0,0, 0x17,0,0,0, 0,0,0,0, 0]
        (0 + ilen0 (get_le32 [0x17,0,0,0, 0x17,0,0,0, 0,0,0,0, 0] 0)) 0 1 0 ∧
    ilen0 (get_le32 [0x17,0,0,0, 0x17,0,0,0, 0,0,0,0, 0] 0) = 4 := by
  exact C5_condf_reject_step 0 false [0x17,0,0,0, 0x17,0,0,0, 0,0,0,0, 0]
    0 0 0 0 (by decide) (by decide) (by decide)

/-- Claim C6: the size estimators reproduce the regression oracle:
513, 800, 1664, 1180160 for inputs 1, 256, 1024, 1048576; input
715827428 yields exactly the implementation maximum UPX_RSIZE_MAX;
input 715827428 + 1 fails; input 0 fails for both estimators
(extra = 0 throughout). -/
theorem C6_size_oracle :
    getSizeForCompression 1 0 = some 513 ∧
    getSizeForCompression 256 0 = some 800 ∧
    getSizeForCompression 1024 0 = some 1664 ∧
    getSizeForCompression 1048576 0 = some 1180160 ∧
    getSizeForCompression 715827428 0 = some UPX_RSIZE_MAX ∧
    getSizeForCompression 715827429 0 = none ∧
    getSizeForCompression 0 0 = none ∧
    getSizeForDecompression 0 0 = none := by
  decide

/-- Claim C7: for an allocated buffer of size N (so 1 ≤ N ≤
UPX_RSIZE_MAX), subreference(0, N) and subreference(N-1, 1) succeed,
subreference(0, N+1) and subreference(N, 1) fail, and in general
subreference(skip, take) fails exactly when skip + take exceeds N or the
size_t addition wraps around. -/
theorem C7_subref_bounds (N skip take : Nat) (hN : 1 ≤ N)
    (hNmax : N ≤ UPX_RSIZE_MAX) (hs : skip < 2^64) (ht : take < 2^64) :
    subref_fails N 0 N = false ∧
    subref_fails N (N-1) 1 = false ∧
    subref_fails N 0 (N+1) = true ∧
    subref_fails N N 1 = true ∧
    (subref_fails N skip take = true ↔
      N < skip + take ∨ 2^64 ≤ skip + take) := by
  unfold subref_fails UPX_RSIZE_MAX at *
  simp only [Bool.or_eq_true, decide_eq_true_eq, Bool.or_eq_false_iff,
    decide_eq_false_iff_not, not_lt]
  refine ⟨by omega, by omega, by omega, by omega, by omega⟩

/-- Witness for C7_subref_bounds at N = 4, skip = 2, take = 3. -/
theorem C7_subref_bounds_witness :
    subref_fails 4 0 4 = false ∧
    subref_fails 4 3 1 = false ∧
    subref_fails 4 0 5 = true ∧
    subref_fails 4 4 1 = true ∧
    (subref_fails 4 2 3 = true ↔ 4 < 2 + 3 ∨ 2^64 ≤ 2 + 3) := by
  exact C7_subref_bounds 4 2 3 (by decide) (by decide) (by decide) (by decide)

/-! ## Fuel sufficiency: the passes are insensitive to extra fuel,
so `F` and `U` (which supply `b.length`) compute the full C loop. -/

theorem Floop_fuel_stable (fuel : Nat) :
    ∀ filt b ic c n l, b.length ≤ ic + 2 * fuel + 8 →
      Floop (fuel+1) filt b ic c n l = Floop fuel filt b ic c n l := by
  induction fuel with
  | zero =>
    intro filt b ic c n l h
    simp only [Floop]
    rw [if_neg (by omega)]
  | succ fuel ih =>
    intro filt b ic c n l h
    by_cases hguard : ic < b.length - 8
    · by_cases hcond : COND (get_le32 b ic) = true
      · by_cases hcf : CONDf (get_le32 b (4+ic)) (rdf (get_le32 b ic)) = true
        · by_cases ht2 : top2neg (get_le32 b ic) = true
          · simp only [Floop, if_pos hguard, hcond, hcf, ht2, if_true]
            apply ih
            cases filt <;> simp [length_fwdWrite] <;> omega
          · rw [Bool.not_eq_true] at ht2
            simp only [Floop, if_pos hguard, hcond, hcf, ht2, if_true,
              Bool.false_eq_true, if_false]
            apply ih
            cases filt <;> simp [length_fwdWrite] <;> omega
        · rw [Bool.not_eq_true] at hcf
          have h4 := ilen0_of_auipc hcond
          simp only [Floop, if_pos hguard, hcond, hcf, if_true,
            Bool.false_eq_true, if_false]
          apply ih
          omega
      · rw [Bool.not_eq_true] at hcond
        have h2 : 2 ≤ ilen0 (get_le32 b ic) := by
          unfold ilen0
          split
          · split
            · omega
            · omega
          · omega
        simp only [Floop, if_pos hguard, hcond, Bool.false_eq_true, if_false]
        apply ih
        omega
    · simp only [Floop, if_neg hguard]

theorem Uloop_fuel_stable (fuel : Nat) :
    ∀ b ic c n l, b.length ≤ ic + 2 * fuel + 8 →
      Uloop (fuel+1) b ic c n l = Uloop fuel b ic c n l := by
  induction fuel with
  | zero =>
    intro b ic c n l h
    simp only [Uloop]
    rw [if_neg (by omega)]
  | succ fuel ih =>
    intro b ic c n l h
    by_cases hguard : ic < b.length - 8
    · by_cases hcond : COND (get_le32 b ic) = true
      · by_cases hcu : CONDu (get_le32 b (4+ic))
            (0o37 &&& (get_le32 b (4+ic) >>> 7)) = true
        · simp only [Uloop, if_pos hguard, hcond, hcu, if_true]
          split
          · apply ih
            rw [length_bwdWrite]
            omega
          · apply ih
            rw [length_bwdWrite]
            omega
        · rw [Bool.not_eq_true] at hcu
          have h4 := ilen0_of_auipc hcond
          simp only [Uloop, if_pos hguard, hcond, hcu, if_true,
            Bool.false_eq_true, if_false]
          apply ih
          omega
      · rw [Bool.not_eq_true] at hcond
        have h2 : 2 ≤ ilen0 (get_le32 b ic) := by
          unfold ilen0
          split
          · split
            · omega
            · omega
          · omega
        simp only [Uloop, if_pos hguard, hcond, Bool.false_eq_true, if_false]
        apply ih
        omega
    · simp only [Uloop, if_neg hguard]

/-- Any fuel at or above `b.length` yields the same pass result: the
fuel-indexed loop has already converged at the fuel `F` uses. -/
theorem F_fuel_irrelevant (filt : Bool) (b : List Nat) (extra : Nat) :
    Floop (b.length + extra) filt b 0 0 0 0 = F filt b := by
  induction extra with
  | zero => rfl
  | succ k ih =>
    rw [← ih]
    exact Floop_fuel_stable (b.length + k) filt b 0 0 0 0 (by omega)

/-- Any fuel at or above `b.length` yields the same unfilter result. -/
theorem U_fuel_irrelevant (b : List Nat) (extra : Nat) :
    Uloop (b.length + extra) b 0 0 0 0 = U b := by
  induction extra with
  | zero => rfl
  | succ k ih =>
    rw [← ih]
    exact Uloop_fuel_stable (b.length + k) b 0 0 0 0 (by omega)

/-! ## Counter conservation (C4) -/

/-- The scan pass tallies one call-or-noncall per visited AUIPC position. -/
theorem Floop_scan_counts (fuel : Nat) :
    ∀ b ic c n l, (Floop fuel false b ic c n l).calls
        + (Floop fuel false b ic c n l).noncalls
      = c + n + auipcVisits fuel b ic := by
  induction fuel with
  | zero => intro b ic c n l; rfl
  | succ fuel ih =>
    intro b ic c n l
    by_cases hguard : ic < b.length - 8
    · by_cases hcond : COND (get_le32 b ic) = true
      · by_cases hcf : CONDf (get_le32 b (4+ic)) (rdf (get_le32 b ic)) = true
        · by_cases ht2 : top2neg (get_le32 b ic) = true
          · simp only [Floop, auipcVisits, if_pos hguard, hcond, hcf, ht2,
              if_true, Bool.false_eq_true, if_false]
            have := ih b (ic+8) c (n+1) l
            omega
          · rw [Bool.not_eq_true] at ht2
            simp only [Floop, auipcVisits, if_pos hguard, hcond, hcf, ht2,
              if_true, Bool.false_eq_true, if_false]
            have := ih b (ic+8) (c+1) n ic
            omega
        · rw [Bool.not_eq_true] at hcf
          simp only [Floop, auipcVisits, if_pos hguard, hcond, hcf, if_true,
            Bool.false_eq_true, if_false]
          have := ih b (ic + ilen0 (get_le32 b ic)) c (n+1) l
          omega
      · rw [Bool.not_eq_true] at hcond
        simp only [Floop, auipcVisits, if_pos hguard, hcond,
          Bool.false_eq_true, if_false]
        exact ih b (ic + ilen0 (get_le32 b ic)) c n l
    · simp only [Floop, auipcVisits, if_neg hguard]
      omega

/-- Scan-pass counters depend only on the bytes at index ic and above. -/
theorem Floop_scan_agree (fuel : Nat) :
    ∀ b b2 ic c n l, b.length = b2.length →
      (∀ j, ic ≤ j → bD b j = bD b2 j) →
      ctrs (Floop fuel false b ic c n l) = ctrs (Floop fuel false b2 ic c n l) := by
  induction fuel with
  | zero => intro b b2 ic c n l _ _; rfl
  | succ fuel ih =>
    intro b b2 ic c n l hlen hag
    have hw1 : get_le32 b2 ic = get_le32 b ic := by
      simp only [get_le32]
      rw [hag ic (by omega), hag (ic+1) (by omega), hag (ic+2) (by omega),
        hag (ic+3) (by omega)]
    have hw2 : get_le32 b2 (4+ic) = get_le32 b (4+ic) := by
      simp only [get_le32]
      rw [hag (4+ic) (by omega), hag (4+ic+1) (by omega),
        hag (4+ic+2) (by omega), hag (4+ic+3) (by omega)]
    simp only [Floop, hw1, hw2, ← hlen]
    by_cases hguard : ic < b.length - 8
    · simp only [if_pos hguard]
      by_cases hcond : COND (get_le32 b ic) = true
      · by_cases hcf : CONDf (get_le32 b (4+ic)) (rdf (get_le32 b ic)) = true
        · by_cases ht2 : top2neg (get_le32 b ic) = true
          · simp only [hcond, hcf, ht2, if_true]
            exact ih b b2 (ic+8) c (n+1) l hlen fun j hj => hag j (by omega)
          · rw [Bool.not_eq_true] at ht2
            simp only [hcond, hcf, ht2, if_true, Bool.false_eq_true, if_false]
            exact ih b b2 (ic+8) (c+1) n ic hlen fun j hj => hag j (by omega)
        · rw [Bool.not_eq_true] at hcf
          simp only [hcond, hcf, if_true, Bool.false_eq_true, if_false]
          exact ih b b2 (ic + ilen0 (get_le32 b ic)) c (n+1) l hlen
            fun j hj => hag j (by omega)
      · rw [Bool.not_eq_true] at hcond
        simp only [hcond, Bool.false_eq_true, if_false]
        exact ih b b2 (ic + ilen0 (get_le32 b ic)) c n l hlen
          fun j hj => hag j (by omega)
    · simp only [if_neg hguard]
      rfl

/-- The filter pass produces the same counters as the scan pass: its
writes stay below the positions it has yet to read. -/
theorem Floop_filt_ctrs (fuel : Nat) :
    ∀ b ic c n l, ctrs (Floop fuel true b ic c n l)
      = ctrs (Floop fuel false b ic c n l) := by
  induction fuel with
  | zero => intro b ic c n l; rfl
  | succ fuel ih =>
    intro b ic c n l
    by_cases hguard : ic < b.length - 8
    · by_cases hcond : COND (get_le32 b ic) = true
      · by_cases hcf : CONDf (get_le32 b (4+ic)) (rdf (get_le32 b ic)) = true
        · by_cases ht2 : top2neg (get_le32 b ic) = true
          · simp only [Floop, if_pos hguard, hcond, hcf, ht2, if_true,
              Bool.false_eq_true, if_false]
            rw [ih (fwdWrite b ic (addrNH b ic) (get_le32 b (4+ic))
              (rdf (get_le32 b ic))) (ic+8) c (n+1) l]
            apply Floop_scan_agree fuel
            · rw [length_fwdWrite]
            · intro j hj
              exact fwdWrite_frame b ic _ _ _ j (Or.inr (by omega))
          · rw [Bool.not_eq_true] at ht2
            simp only [Floop, if_pos hguard, hcond, hcf, ht2, if_true,
              Bool.false_eq_true, if_false]
            rw [ih (fwdWrite b ic (addrH b ic) (get_le32 b (4+ic))
              (rdf (get_le32 b ic))) (ic+8) (c+1) n ic]
            apply Floop_scan_agree fuel
            · rw [length_fwdWrite]
            · intro j hj
              exact fwdWrite_frame b ic _ _ _ j (Or.inr (by omega))
        · rw [Bool.not_eq_true] at hcf
          simp only [Floop, if_pos hguard, hcond, hcf, if_true,
            Bool.false_eq_true, if_false]
          exact ih b (ic + ilen0 (get_le32 b ic)) c (n+1) l
      · rw [Bool.not_eq_true] at hcond
        simp only [Floop, if_pos hguard, hcond, Bool.false_eq_true, if_false]
        exact ih b (ic + ilen0 (get_le32 b ic)) c n l
    · simp only [Floop, if_neg hguard]

/-- Claim C4: after a full pass of the filter engine (in scan or filter
mode), calls + noncalls equals the number of instruction positions
visited by the pass whose leading word has 7-bit opcode field equal to the
AUIPC opcode 0x17. -/
theorem C4_counter_conservation (filt : Bool) (b : List Nat) :
    (F filt b).calls + (F filt b).noncalls = auipcPositions b := by
  cases filt
  · simpa [F, auipcPositions] using Floop_scan_counts b.length b 0 0 0 0
  · have h1 := Floop_filt_ctrs b.length b 0 0 0 0
    have hc : (Floop b.length true b 0 0 0 0).calls
        = (Floop b.length false b 0 0 0 0).calls := congrArg Prod.fst h1
    have hn : (Floop b.length true b 0 0 0 0).noncalls
        = (Floop b.length false b 0 0 0 0).noncalls :=
      congrArg (fun t => t.2.1) h1
    have h2 := Floop_scan_counts b.length b 0 0 0 0
    simp only [F, auipcPositions, hc, hn]
    simpa using h2

/-! ## Write locality (C10) -/

theorem Floop_buf_length (fuel : Nat) :
    ∀ filt b ic c n l, (Floop fuel filt b ic c n l).buf.length = b.length := by
  induction fuel with
  | zero => intro filt b ic c n l; rfl
  | succ fuel ih =>
    intro filt b ic c n l
    simp only [Floop]
    split
    · split
      · split
        · split
          · rw [ih]
            cases filt <;> simp [length_fwdWrite]
          · rw [ih]
            cases filt <;> simp [length_fwdWrite]
        · apply ih
      · apply ih
    · rfl

theorem Uloop_buf_length (fuel : Nat) :
    ∀ b ic c n l, (Uloop fuel b ic c n l).buf.length = b.length := by
  induction fuel with
  | zero => intro b ic c n l; rfl
  | succ fuel ih =>
    intro b ic c n l
    simp only [Uloop]
    split
    · split
      · split
        · split
          · rw [ih, length_bwdWrite]
          · rw [ih, length_bwdWrite]
        · apply ih
      · apply ih
    · rfl

/-- No pass iteration ever writes at or past index `b.length - 1`. -/
theorem Floop_keeps_tail (fuel : Nat) :
    ∀ filt b ic c n l j, b.length - 1 ≤ j →
      bD (Floop fuel filt b ic c n l).buf j = bD b j := by
  induction fuel with
  | zero => intro filt b ic c n l j hj; rfl
  | succ fuel ih =>
    intro filt b ic c n l j hj
    by_cases hguard : ic < b.length - 8
    · by_cases hcond : COND (get_le32 b ic) = true
      · by_cases hcf : CONDf (get_le32 b (4+ic)) (rdf (get_le32 b ic)) = true
        · have hfr : ∀ a, bD (fwdWrite b ic a (get_le32 b (4+ic))
              (rdf (get_le32 b ic))) j = bD b j :=
            fun a => fwdWrite_frame b ic a _ _ j (Or.inr (by omega))
          have hfl : ∀ a, (fwdWrite b ic a (get_le32 b (4+ic))
              (rdf (get_le32 b ic))).length = b.length :=
            fun a => length_fwdWrite b ic a _ _
          by_cases ht2 : top2neg (get_le32 b ic) = true
          · cases filt
            · simp only [Floop, if_pos hguard, hcond, hcf, ht2, if_true,
                Bool.false_eq_true, if_false]
              exact ih false b (ic+8) c (n+1) l j hj
            · simp only [Floop, if_pos hguard, hcond, hcf, ht2, if_true]
              rw [ih true _ (ic+8) c (n+1) l j (by rw [hfl]; exact hj)]
              exact hfr _
          · rw [Bool.not_eq_true] at ht2
            cases filt
            · simp only [Floop, if_pos hguard, hcond, hcf, ht2, if_true,
                Bool.false_eq_true, if_false]
              exact ih false b (ic+8) (c+1) n ic j hj
            · simp only [Floop, if_pos hguard, hcond, hcf, ht2, if_true,
                Bool.false_eq_true, if_false]
              rw [ih true _ (ic+8) (c+1) n ic j (by rw [hfl]; exact hj)]
              exact hfr _
        · rw [Bool.not_eq_true] at hcf
          simp only [Floop, if_pos hguard, hcond, hcf, if_true,
            Bool.false_eq_true, if_false]
          exact ih filt b (ic + ilen0 (get_le32 b ic)) c (n+1) l j hj
      · rw [Bool.not_eq_true] at hcond
        simp only [Floop, if_pos hguard, hcond, Bool.false_eq_true, if_false]
        exact ih filt b (ic + ilen0 (get_le32 b ic)) c n l j hj
    · simp only [Floop, if_neg hguard]

theorem Uloop_keeps_tail (fuel : Nat) :
    ∀ b ic c n l j, b.length - 1 ≤ j →
      bD (Uloop fuel b ic c n l).buf j = bD b j := by
  induction fuel with
  | zero => intro b ic c n l j hj; rfl
  | succ fuel ih =>
    intro b ic c n l j hj
    by_cases hguard : ic < b.length - 8
    · by_cases hcond : COND (get_le32 b ic) = true
      · by_cases hcu : CONDu (get_le32 b (4+ic))
            (0o37 &&& (get_le32 b (4+ic) >>> 7)) = true
        · have hfr : ∀ a, bD (bwdWrite b ic a (get_le32 b (4+ic))
              (0o37 &&& (get_le32 b (4+ic) >>> 7))) j = bD b j :=
            fun a => bwdWrite_frame b ic a _ _ j (Or.inr (by omega))
          have hfl : ∀ a, (bwdWrite b ic a (get_le32 b (4+ic))
              (0o37 &&& (get_le32 b (4+ic) >>> 7))).length = b.length :=
            fun a => length_bwdWrite b ic a _ _
          simp only [Uloop, if_pos hguard, hcond, hcu, if_true]
          split
          · rw [ih _ (ic+8) (c+1) n ic j (by rw [hfl]; exact hj)]
            exact hfr _
          · rw [ih _ (ic+8) c (n+1) l j (by rw [hfl]; exact hj)]
            exact hfr _
        · rw [Bool.not_eq_true] at hcu
          simp only [Uloop, if_pos hguard, hcond, hcu, if_true,
            Bool.false_eq_true, if_false]
          exact ih b (ic + ilen0 (get_le32 b ic)) c (n+1) l j hj
      · rw [Bool.not_eq_true] at hcond
        simp only [Uloop, if_pos hguard, hcond, Bool.false_eq_true, if_false]
        exact ih b (ic + ilen0 (get_le32 b ic)) c n l j hj
    · simp only [Uloop, if_neg hguard]

/-! ## Commuting a write to the last byte past the pass (C10) -/

theorem set_le32_set_comm (b : List Nat) (i v k w : Nat)
    (h : i + 4 ≤ k ∨ k < i) :
    set_le32 (b.set k w) i v = (set_le32 b i v).set k w := by
  have h0 : k ≠ i := by omega
  have h1 : k ≠ i+1 := by omega
  have h2 : k ≠ i+2 := by omega
  have h3 : k ≠ i+3 := by omega
  simp only [set_le32]
  rw [List.set_comm _ _ _ h0, List.set_comm _ _ _ h1, List.set_comm _ _ _ h2,
    List.set_comm _ _ _ h3]

theorem set_be32_set_comm (b : List Nat) (i v k w : Nat)
    (h : i + 4 ≤ k ∨ k < i) :
    set_be32 (b.set k w) i v = (set_be32 b i v).set k w := by
  have h0 : k ≠ i := by omega
  have h1 : k ≠ i+1 := by omega
  have h2 : k ≠ i+2 := by omega
  have h3 : k ≠ i+3 := by omega
  simp only [set_be32]
  rw [List.set_comm _ _ _ h0, List.set_comm _ _ _ h1, List.set_comm _ _ _ h2,
    List.set_comm _ _ _ h3]

theorem fwdWrite_set_comm (b : List Nat) (ic a w2 r k w : Nat)
    (h : ic + 8 ≤ k ∨ k < ic) :
    fwdWrite (b.set k w) ic a w2 r = (fwdWrite b ic a w2 r).set k w := by
  have h0 : k ≠ ic := by omega
  simp only [fwdWrite]
  rw [List.set_comm _ _ _ h0, set_be32_set_comm _ _ _ _ _ (by omega),
    set_le32_set_comm _ _ _ _ _ (by omega)]

theorem bwdWrite_set_comm (b : List Nat) (ic a w2 r k w : Nat)
    (h : ic + 8 ≤ k ∨ k < ic) :
    bwdWrite (b.set k w) ic a w2 r = (bwdWrite b ic a w2 r).set k w := by
  simp only [bwdWrite]
  rw [set_le32_set_comm _ _ _ _ _ (by omega),
    set_le32_set_comm _ _ _ _ _ (by omega)]

/-- The pass never reads the last byte: changing it commutes with the
whole pass and leaves the counters unchanged. -/
theorem Floop_setlast (fuel : Nat) :
    ∀ filt b v ic c n l,
      Floop fuel filt (b.set (b.length - 1) v) ic c n l =
        ⟨(Floop fuel filt b ic c n l).buf.set (b.length - 1) v,
          (Floop fuel filt b ic c n l).calls,
          (Floop fuel filt b ic c n l).noncalls,
          (Floop fuel filt b ic c n l).lastcall⟩ := by
  induction fuel with
  | zero => intro filt b v ic c n l; rfl
  | succ fuel ih =>
    intro filt b v ic c n l
    have hlen : (b.set (b.length - 1) v).length = b.length := by simp
    by_cases hguard : ic < b.length - 8
    · have e1 : get_le32 (b.set (b.length - 1) v) ic = get_le32 b ic :=
        get_le32_set_frame b (b.length - 1) v ic (Or.inl (by omega))
      have e2 : get_le32 (b.set (b.length - 1) v) (4+ic) = get_le32 b (4+ic) :=
        get_le32_set_frame b (b.length - 1) v (4+ic) (Or.inl (by omega))
      have e3 : addrNH (b.set (b.length - 1) v) ic = addrNH b ic := by
        simp only [addrNH, e1, e2]
      have e4 : addrH (b.set (b.length - 1) v) ic = addrH b ic := by
        simp only [addrH, e1, e2]
      by_cases hcond : COND (get_le32 b ic) = true
      · by_cases hcf : CONDf (get_le32 b (4+ic)) (rdf (get_le32 b ic)) = true
        · by_cases ht2 : top2neg (get_le32 b ic) = true
          · cases filt
            · simp only [Floop, hlen, if_pos hguard, e1, e2, hcond, hcf, ht2,
                if_true, Bool.false_eq_true, if_false]
              exact ih false b v (ic+8) c (n+1) l
            · simp only [Floop, hlen, if_pos hguard, e1, e2, e3, hcond, hcf,
                ht2, if_true]
              rw [fwdWrite_set_comm b ic _ _ _ _ _ (Or.inl (by omega))]
              have := ih true (fwdWrite b ic (addrNH b ic) (get_le32 b (4+ic))
                (rdf (get_le32 b ic))) v (ic+8) c (n+1) l
              rw [length_fwdWrite] at this
              exact this
          · rw [Bool.not_eq_true] at ht2
            cases filt
            · simp only [Floop, hlen, if_pos hguard, e1, e2, hcond, hcf, ht2,
                if_true, Bool.false_eq_true, if_false]
              exact ih false b v (ic+8) (c+1) n ic
            · simp only [Floop, hlen, if_pos hguard, e1, e2, e4, hcond, hcf,
                ht2, if_true, Bool.false_eq_true, if_false]
              rw [fwdWrite_set_comm b ic _ _ _ _ _ (Or.inl (by omega))]
              have := ih true (fwdWrite b ic (addrH b ic) (get_le32 b (4+ic))
                (rdf (get_le32 b ic))) v (ic+8) (c+1) n ic
              rw [length_fwdWrite] at this
              exact this
        · rw [Bool.not_eq_true] at hcf
          simp only [Floop, hlen, if_pos hguard, e1, e2, hcond, hcf, if_true,
            Bool.false_eq_true, if_false]
          exact ih filt b v (ic + ilen0 (get_le32 b ic)) c (n+1) l
      · rw [Bool.not_eq_true] at hcond
        simp only [Floop, hlen, if_pos hguard, e1, hcond, Bool.false_eq_true,
          if_false]
        exact ih filt b v (ic + ilen0 (get_le32 b ic)) c n l
    · simp only [Floop, hlen, if_neg hguard]

theorem Uloop_setlast (fuel : Nat) :
    ∀ b v ic c n l,
      Uloop fuel (b.set (b.length - 1) v) ic c n l =
        ⟨(Uloop fuel b ic c n l).buf.set (b.length - 1) v,
          (Uloop fuel b ic c n l).calls,
          (Uloop fuel b ic c n l).noncalls,
          (Uloop fuel b ic c n l).lastcall⟩ := by
  induction fuel with
  | zero => intro b v ic c n l; rfl
  | succ fuel ih =>
    intro b v ic c n l
    have hlen : (b.set (b.length - 1) v).length = b.length := by simp
    by_cases hguard : ic < b.length - 8
    · have e1 : get_le32 (b.set (b.length - 1) v) ic = get_le32 b ic :=
        get_le32_set_frame b (b.length - 1) v ic (Or.inl (by omega))
      have e2 : get_le32 (b.set (b.length - 1) v) (4+ic) = get_le32 b (4+ic) :=
        get_le32_set_frame b (b.length - 1) v (4+ic) (Or.inl (by omega))
      have e5 : get_be32 (b.set (b.length - 1) v) (1+ic) = get_be32 b (1+ic) :=
        get_be32_set_frame b (b.length - 1) v (1+ic) (Or.inl (by omega))
      by_cases hcond : COND (get_le32 b ic) = true
      · by_cases hcu : CONDu (get_le32 b (4+ic))
            (0o37 &&& (get_le32 b (4+ic) >>> 7)) = true
        · simp only [Uloop, hlen, if_pos hguard, e1, e2, e5, hcond, hcu,
            if_true]
          split
          · rw [bwdWrite_set_comm b ic _ _ _ _ _ (Or.inl (by omega))]
            have := ih (bwdWrite b ic
              (u32 ((((0xffffff00 &&& get_be32 b (1+ic)) |||
                ((0x7f &&& get_be32 b (1+ic)) <<< 1) |||
                (1 &&& (get_le32 b ic >>> 7))) : Nat) - (ic : Int)))
              (get_le32 b (4+ic)) (0o37 &&& (get_le32 b (4+ic) >>> 7)))
              v (ic+8) (c+1) n ic
            rw [length_bwdWrite] at this
            exact this
          · rw [bwdWrite_set_comm b ic _ _ _ _ _ (Or.inl (by omega))]
            have := ih (bwdWrite b ic
              ((0xffffff00 &&& get_be32 b (1+ic)) |||
                ((0x7f &&& get_be32 b (1+ic)) <<< 1) |||
                (1 &&& (get_le32 b ic >>> 7)))
              (get_le32 b (4+ic)) (0o37 &&& (get_le32 b (4+ic) >>> 7)))
              v (ic+8) c (n+1) l
            rw [length_bwdWrite] at this
            exact this
        · rw [Bool.not_eq_true] at hcu
          simp only [Uloop, hlen, if_pos hguard, e1, e2, hcond, hcu, if_true,
            Bool.false_eq_true, if_false]
          exact ih b v (ic + ilen0 (get_le32 b ic)) c (n+1) l
      · rw [Bool.not_eq_true] at hcond
        simp only [Uloop, hlen, if_pos hguard, e1, e2, hcond,
          Bool.false_eq_true, if_false]
        exact ih b v (ic + ilen0 (get_le32 b ic)) c n l
    · simp only [Uloop, hlen, if_neg hguard]

/-! ## Short buffers: the loop body never runs (C10) -/

theorem F_small (filt : Bool) (b : List Nat) (h : b.length ≤ 8) :
    F filt b = ⟨b, 0, 0, 0⟩ := by
  unfold F
  cases hb : b.length with
  | zero => rfl
  | succ m =>
    simp only [Floop]
    rw [if_neg (by omega)]

theorem U_small (b : List Nat) (h : b.length ≤ 8) : U b = ⟨b, 0, 0, 0⟩ := by
  unfold U
  cases hb : b.length with
  | zero => rfl
  | succ m =>
    simp only [Uloop]
    rw [if_neg (by omega)]

/-! ## Suffix equality from pointwise byte equality -/

theorem getElem?_eq_bD (b : List Nat) (k : Nat) :
    b[k]? = if k < b.length then some (bD b k) else none := by
  split
  · rename_i hk
    rw [List.getElem?_eq_getElem hk]
    simp [bD, List.getD_eq_getElem?_getD, List.getElem?_eq_getElem hk]
  · rename_i hk
    exact List.getElem?_eq_none (by omega)

theorem drop_eq_of_tail_eq {a b : List Nat} (L : Nat)
    (hlen : a.length = b.length)
    (h : ∀ j, L ≤ j → bD a j = bD b j) : a.drop L = b.drop L := by
  apply List.ext_getElem?
  intro i
  rw [List.getElem?_drop, List.getElem?_drop, getElem?_eq_bD, getElem?_eq_bD,
    hlen, h (L+i) (by omega)]

/-- Claim C10: in every mode (scan, filter, unfilter) the pass touches
only bytes at offsets strictly below `buf_len - 1`: the buffer suffix
from `buf_len - 1` on survives every pass unchanged, overwriting the byte
at `buf_len - 1` commutes with every pass without affecting any counter
(the pass neither reads nor writes it), and for every buffer of length
at most 8 the loop body never executes: the buffer is returned unchanged
with calls = noncalls = lastcall = 0. -/
theorem C10_last_byte_untouched (filt : Bool) (b : List Nat) (v : Nat) :
    ((F filt b).buf.drop (b.length - 1) = b.drop (b.length - 1)) ∧
    ((U b).buf.drop (b.length - 1) = b.drop (b.length - 1)) ∧
    (F filt (b.set (b.length - 1) v) =
      ⟨(F filt b).buf.set (b.length - 1) v, (F filt b).calls,
        (F filt b).noncalls, (F filt b).lastcall⟩) ∧
    (U (b.set (b.length - 1) v) =
      ⟨(U b).buf.set (b.length - 1) v, (U b).calls, (U b).noncalls,
        (U b).lastcall⟩) ∧
    (b.length ≤ 8 → F filt b = ⟨b, 0, 0, 0⟩ ∧ U b = ⟨b, 0, 0, 0⟩) := by
  refine ⟨?_, ?_, ?_, ?_, fun h => ⟨F_small filt b h, U_small b h⟩⟩
  · apply drop_eq_of_tail_eq
    · exact Floop_buf_length b.length filt b 0 0 0 0
    · intro j hj
      exact Floop_keeps_tail b.length filt b 0 0 0 0 j hj
  · apply drop_eq_of_tail_eq
    · exact Uloop_buf_length b.length b 0 0 0 0
    · intro j hj
      exact Uloop_keeps_tail b.length b 0 0 0 0 j hj
  · show Floop (b.set (b.length - 1) v).length filt (b.set (b.length - 1) v)
        0 0 0 0 = _
    rw [List.length_set]
    exact Floop_setlast b.length filt b v 0 0 0 0
  · show Uloop (b.set (b.length - 1) v).length (b.set (b.length - 1) v)
        0 0 0 0 = _
    rw [List.length_set]
    exact Uloop_setlast b.length b v 0 0 0 0

/-- Witness for C10_last_byte_untouched on a concrete 3-byte buffer. -/
theorem C10_last_byte_untouched_witness :
    F true [1, 2, 3] = ⟨[1, 2, 3], 0, 0, 0⟩ ∧
    U [1, 2, 3] = ⟨[1, 2, 3], 0, 0, 0⟩ :=
  (C10_last_byte_untouched true [1, 2, 3] 0).2.2.2.2 (by decide)

/-! ## MemBuffer guard words: read-back and corruption lemmas -/

theorem get_le32_set_le32_self (b : List Nat) (i v : Nat)
    (hr : i + 4 ≤ b.length) (hv : v < 2^32) :
    get_le32 (set_le32 b i v) i = v := by
  have n30 : i+3 ≠ i := by omega
  have n20 : i+2 ≠ i := by omega
  have n10 : i+1 ≠ i := by omega
  have n31 : i+3 ≠ i+1 := by omega
  have n21 : i+2 ≠ i+1 := by omega
  have n32 : i+3 ≠ i+2 := by omega
  have l0 : i < b.length := by omega
  have l1 : i+1 < ((b.set i (v % 256))).length := by
    simp only [List.length_set]; omega
  have l2 : i+2 < (((b.set i (v % 256)).set (i+1) (v / 256 % 256))).length := by
    simp only [List.length_set]; omega
  have l3 : i+3 < ((((b.set i (v % 256)).set (i+1) (v / 256 % 256)).set
      (i+2) (v / 65536 % 256))).length := by
    simp only [List.length_set]; omega
  simp only [set_le32, get_le32]
  rw [bD_set_ne n30, bD_set_ne n20, bD_set_ne n10, bD_set_self l0,
    bD_set_ne n31, bD_set_ne n21, bD_set_self l1,
    bD_set_ne n32, bD_set_self l2,
    bD_set_self l3]
  omega

theorem get_le32_set_le32_frame (b : List Nat) (i v w : Nat)
    (h : w + 4 ≤ i ∨ i + 4 ≤ w) :
    get_le32 (set_le32 b i v) w = get_le32 b w := by
  simp only [get_le32]
  rw [bD_set_le32_frame b i v w (by omega), bD_set_le32_frame b i v (w+1) (by omega),
    bD_set_le32_frame b i v (w+2) (by omega), bD_set_le32_frame b i v (w+3) (by omega)]

theorem freshHeap_length (junk : List Nat) (len : Nat) :
    (freshHeap junk len).length = len := by
  simp [freshHeap]

theorem freshHeap_lt (junk : List Nat) (len : Nat) :
    ∀ x ∈ freshHeap junk len, x < 256 := by
  intro x hx
  simp only [freshHeap] at hx
  have hx2 := List.mem_of_mem_take hx
  rcases List.mem_append.1 hx2 with h | h
  · rcases List.mem_map.1 h with ⟨y, _, rfl⟩
    exact Nat.mod_lt _ (by omega)
  · have := List.eq_of_mem_replicate h
    omega

theorem set_le32_all_lt {b : List Nat} (hb : ∀ x ∈ b, x < 256) (i v : Nat) :
    ∀ x ∈ set_le32 b i v, x < 256 := by
  intro x hx
  simp only [set_le32] at hx
  rcases List.mem_or_eq_of_mem_set hx with hx2 | h4
  · rcases List.mem_or_eq_of_mem_set hx2 with hx3 | h3
    · rcases List.mem_or_eq_of_mem_set hx3 with hx4 | h2
      · rcases List.mem_or_eq_of_mem_set hx4 with hx5 | h1
        · exact hb x hx5
        · omega
      · omega
    · omega
  · omega

theorem MAGIC1_lt (p : Nat) : MAGIC1 p < 2^32 := by
  unfold MAGIC1
  apply Nat.or_lt_two_pow
  · exact Nat.xor_lt_two_pow (Nat.mod_lt _ (by omega)) (by omega)
  · omega

theorem MAGIC2_lt (p : Nat) : MAGIC2 p < 2^32 := by
  unfold MAGIC2
  apply Nat.or_lt_two_pow
  · exact Nat.xor_lt_two_pow
      (Nat.xor_lt_two_pow (Nat.mod_lt _ (by omega)) (by omega)) (by omega)
  · omega

/-- The heap region written by a successful alloc satisfies the allocated
half of the invariant, guards included. -/
theorem allocHeap_ok (bytes p cnt : Nat) (junk : List Nat) (hp : List Nat)
    (hheap : hp = set_le32 (set_le32 (set_le32 (set_le32 (freshHeap junk
      (bytes+32)) 8 bytes) 12 (MAGIC1 p)) (16+bytes) (MAGIC2 p))
      (16+bytes+4) cnt)
    (hb : 0 < bytes) (hmax : bytes ≤ UPX_RSIZE_MAX) :
    AllocatedOK ⟨some p, bytes, hp⟩ := by
  have hlen0 : (freshHeap junk (bytes+32)).length = bytes + 32 :=
    freshHeap_length junk (bytes+32)
  have hmax32 : bytes < 2^32 := by
    have : UPX_RSIZE_MAX = 805306368 := rfl
    omega
  have hlen4 : hp.length = bytes + 32 := by
    rw [hheap, length_set_le32, length_set_le32, length_set_le32,
      length_set_le32, hlen0]
  have g1 : get_le32 hp 12 = MAGIC1 p := by
    rw [hheap, get_le32_set_le32_frame _ _ _ _ (by omega),
      get_le32_set_le32_frame _ _ _ _ (by omega)]
    apply get_le32_set_le32_self _ _ _ _ (MAGIC1_lt p)
    rw [length_set_le32, hlen0]
    omega
  have g2 : get_le32 hp 8 = bytes := by
    rw [hheap, get_le32_set_le32_frame _ _ _ _ (by omega),
      get_le32_set_le32_frame _ _ _ _ (by omega),
      get_le32_set_le32_frame _ _ _ _ (by omega)]
    apply get_le32_set_le32_self _ _ _ _ hmax32
    rw [hlen0]
    omega
  have g3 : get_le32 hp (16+bytes) = MAGIC2 p := by
    rw [hheap, get_le32_set_le32_frame _ _ _ _ (by omega)]
    apply get_le32_set_le32_self _ _ _ _ (MAGIC2_lt p)
    rw [length_set_le32, length_set_le32, hlen0]
    omega
  refine ⟨⟨p, rfl⟩, hb, hlen4, ?_, ?_⟩
  · show ∀ x ∈ hp, x < 256
    rw [hheap]
    exact set_le32_all_lt (set_le32_all_lt (set_le32_all_lt (set_le32_all_lt
      (freshHeap_lt junk (bytes+32)) _ _) _ _) _ _) _ _
  · show checkState ⟨some p, bytes, hp⟩ = true
    simp only [checkState, g1, g2, g3, beq_self_eq_true, Bool.and_true,
      Bool.true_and, decide_eq_true_eq]
    exact hb

/-- Claim C8: every MemBuffer is in exactly one of the two legal states —
unallocated (null pointer, zero size, no owned region) or allocated
(non-null pointer, positive size, guard words consistent with those
written at allocation) — and construction, successful alloc and
successful dealloc each yield a state of this form again; the two states
are mutually exclusive. -/
theorem C8_two_state_invariant (m : MB) (hm : MBInv m) :
    MBInv mbInit ∧
    (∀ bytes p cnt junk m2, alloc m bytes p cnt junk = some m2 → MBInv m2) ∧
    (∀ m2, dealloc m = some m2 → MBInv m2) ∧
    ¬(Unallocated m ∧ AllocatedOK m) := by
  refine ⟨Or.inl ⟨rfl, rfl, rfl⟩, ?_, ?_, ?_⟩
  · intro bytes p cnt junk m2 halloc
    unfold alloc at halloc
    split at halloc
    · exact absurd halloc (by simp)
    · split at halloc
      · exact absurd halloc (by simp)
      · split at halloc
        · exact absurd halloc (by simp)
        · split at halloc
          · exact absurd halloc (by simp)
          · rename_i hb0 hmax
            rw [Option.some.injEq] at halloc
            subst halloc
            exact Or.inr (allocHeap_ok bytes p cnt junk _ rfl
              (by omega) (by omega))
  · intro m2 hde
    unfold dealloc at hde
    split at hde
    · split at hde
      · rw [Option.some.injEq] at hde
        subst hde
        exact hm
      · exact absurd hde (by simp)
    · split at hde
      · rw [Option.some.injEq] at hde
        subst hde
        exact Or.inl ⟨rfl, rfl, rfl⟩
      · exact absurd hde (by simp)
  · rintro ⟨⟨hnone, -, -⟩, ⟨⟨p, hsome⟩, -⟩⟩
    rw [hnone] at hsome
    exact Option.noConfusion hsome

/-- Witness for C8_two_state_invariant at the default-constructed
buffer. -/
theorem C8_two_state_invariant_witness :
    MBInv mbInit ∧
    (∀ bytes p cnt junk m2, alloc mbInit bytes p cnt junk = some m2 →
      MBInv m2) ∧
    (∀ m2, dealloc mbInit = some m2 → MBInv m2) ∧
    ¬(Unallocated mbInit ∧ AllocatedOK mbInit) :=
  C8_two_state_invariant mbInit (Or.inl ⟨rfl, rfl, rfl⟩)

/-- Changing one byte inside a 4-byte little-endian word (all bytes below
256) changes the value of the word. -/
theorem get_le32_set_in (b : List Nat) (w j v : Nat) (hj : j < 4)
    (hr : w + 4 ≤ b.length)
    (h0 : bD b w < 256) (h1 : bD b (w+1) < 256) (h2 : bD b (w+2) < 256)
    (h3 : bD b (w+3) < 256) (hv : v < 256) (hne : v ≠ bD b (w+j)) :
    get_le32 (b.set (w+j) v) w ≠ get_le32 b w := by
  interval_cases j
  · have e0 : bD (b.set (w+0) v) w = v := by
      simpa using bD_set_self (show w < b.length by omega) v
    have e1 : bD (b.set (w+0) v) (w+1) = bD b (w+1) := by
      simpa using bD_set_ne (show w ≠ w+1 by omega) b v
    have e2 : bD (b.set (w+0) v) (w+2) = bD b (w+2) := by
      simpa using bD_set_ne (show w ≠ w+2 by omega) b v
    have e3 : bD (b.set (w+0) v) (w+3) = bD b (w+3) := by
      simpa using bD_set_ne (show w ≠ w+3 by omega) b v
    simp only [get_le32, e0, e1, e2, e3]
    simp only [Nat.add_zero] at hne
    omega
  · have e0 : bD (b.set (w+1) v) w = bD b w := bD_set_ne (by omega) b v
    have e1 : bD (b.set (w+1) v) (w+1) = v :=
      bD_set_self (show w+1 < b.length by omega) v
    have e2 : bD (b.set (w+1) v) (w+2) = bD b (w+2) := bD_set_ne (by omega) b v
    have e3 : bD (b.set (w+1) v) (w+3) = bD b (w+3) := bD_set_ne (by omega) b v
    simp only [get_le32, e0, e1, e2, e3]
    omega
  · have e0 : bD (b.set (w+2) v) w = bD b w := bD_set_ne (by omega) b v
    have e1 : bD (b.set (w+2) v) (w+1) = bD b (w+1) := bD_set_ne (by omega) b v
    have e2 : bD (b.set (w+2) v) (w+2) = v :=
      bD_set_self (show w+2 < b.length by omega) v
    have e3 : bD (b.set (w+2) v) (w+3) = bD b (w+3) := bD_set_ne (by omega) b v
    simp only [get_le32, e0, e1, e2, e3]
    omega
  · have e0 : bD (b.set (w+3) v) w = bD b w := bD_set_ne (by omega) b v
    have e1 : bD (b.set (w+3) v) (w+1) = bD b (w+1) := bD_set_ne (by omega) b v
    have e2 : bD (b.set (w+3) v) (w+2) = bD b (w+2) := bD_set_ne (by omega) b v
    have e3 : bD (b.set (w+3) v) (w+3) = v :=
      bD_set_self (show w+3 < b.length by omega) v
    simp only [get_le32, e0, e1, e2, e3]
    omega

theorem set_bD_self (b : List Nat) (i : Nat) (h : i < b.length) :
    b.set i (bD b i) = b := by
  apply List.ext_getElem?
  intro k
  by_cases hk : i = k
  · subst hk
    rw [List.getElem?_set_eq_of_lt _ h, getElem?_eq_bD, if_pos h]
  · rw [List.getElem?_set_ne hk]

/-- Claim C9: for an allocated buffer in guard mode, overwriting any of
the 8 guard bytes immediately before the payload or any of the 4 guard
bytes immediately after it with a different byte value makes the next
checkState call fail, and restoring the original byte restores the heap
exactly (so validation succeeds again). -/
theorem C9_guard_detection (p s : Nat) (heap : List Nat) (i v : Nat)
    (hchk : checkState ⟨some p, s, heap⟩ = true)
    (hlen : heap.length = s + 32)
    (hbytes : ∀ x ∈ heap, x < 256)
    (hi : (8 ≤ i ∧ i < 16) ∨ (16 + s ≤ i ∧ i < 16 + s + 4))
    (hv : v < 256) (hne : v ≠ bD heap i) :
    checkState ⟨some p, s, heap.set i v⟩ = false ∧
    (heap.set i v).set i (bD heap i) = heap := by
  have hilen : i < heap.length := by omega
  refine ⟨?_, by rw [List.set_set]; exact set_bD_self heap i hilen⟩
  simp only [checkState, Bool.and_eq_true, beq_iff_eq, decide_eq_true_eq]
    at hchk
  obtain ⟨⟨⟨hpos, hm1⟩, hsz⟩, hm2⟩ := hchk
  rcases hi with ⟨hi1, hi2⟩ | ⟨hi1, hi2⟩
  · by_cases hw : i < 12
    · obtain ⟨j, rfl, hj⟩ : ∃ j, i = 8 + j ∧ j < 4 := ⟨i - 8, by omega, by omega⟩
      have hne2 : get_le32 (heap.set (8+j) v) 8 ≠ get_le32 heap 8 :=
        get_le32_set_in heap 8 j v hj (by omega)
          (bD_lt_256 hbytes (by omega)) (bD_lt_256 hbytes (by omega))
          (bD_lt_256 hbytes (by omega)) (bD_lt_256 hbytes (by omega)) hv hne
      have hfalse : (get_le32 (heap.set (8+j) v) 8 == s) = false := by
        rw [beq_eq_false_iff_ne, ← hsz]
        exact hne2
      simp only [checkState]
      simp [hfalse]
    · obtain ⟨j, rfl, hj⟩ : ∃ j, i = 12 + j ∧ j < 4 :=
        ⟨i - 12, by omega, by omega⟩
      have hne2 : get_le32 (heap.set (12+j) v) 12 ≠ get_le32 heap 12 :=
        get_le32_set_in heap 12 j v hj (by omega)
          (bD_lt_256 hbytes (by omega)) (bD_lt_256 hbytes (by omega))
          (bD_lt_256 hbytes (by omega)) (bD_lt_256 hbytes (by omega)) hv hne
      have hfalse : (get_le32 (heap.set (12+j) v) 12 == MAGIC1 p) = false := by
        rw [beq_eq_false_iff_ne, ← hm1]
        exact hne2
      simp only [checkState]
      simp [hfalse]
  · obtain ⟨j, rfl, hj⟩ : ∃ j, i = (16+s) + j ∧ j < 4 :=
      ⟨i - (16+s), by omega, by omega⟩
    have hne2 : get_le32 (heap.set ((16+s)+j) v) (16+s)
        ≠ get_le32 heap (16+s) :=
      get_le32_set_in heap (16+s) j v hj (by omega)
        (bD_lt_256 hbytes (by omega)) (bD_lt_256 hbytes (by omega))
        (bD_lt_256 hbytes (by omega)) (bD_lt_256 hbytes (by omega)) hv hne
    have hfalse : (get_le32 (heap.set ((16+s)+j) v) (16+s) == MAGIC2 p)
        = false := by
      rw [beq_eq_false_iff_ne, ← hm2]
      exact hne2
    simp only [checkState]
    simp [hfalse]

/-- Witness for C9_guard_detection: corrupting the first MAGIC1 byte
(index 12) of a concrete allocated buffer of size 1 at address 1000. -/
theorem C9_guard_detection_witness :
    checkState ⟨some 1000, 1, heapW.set 12 0⟩ = false ∧
    (heapW.set 12 0).set 12 (bD heapW 12) = heapW :=
  C9_guard_detection 1000 1 heapW 12 0 (by decide) (by decide) (by decide)
    (by decide) (by decide) (by decide)

